import Mathlib

/-!
# Student registry HTTP handler (`main.go`)

A shallow embedding of the request handler of the student service: the two
routing regular expressions, the in-memory store, the response writer and the
handlers `ServeHTTP`, `Get`, `Create`, `List`, followed by theorems about
routing, the store and the responses.

Collaborators that live outside the repository are kept explicit:

* `encoding/json` is a parameter (`Json`): the handlers only see whether a
  call fails and which value or bytes it yields;
* `regexp` is `RegularExpression Char` with the derivative matcher `rmatch`;
  both patterns are anchored with `^` and `$`, so a match is a match of the
  whole path;
* `net/http` is reduced to the response writer protocol (header map, status
  line sent once together with the header map of that moment, body) and to
  the matching of the two mux patterns of `main`;
* `sync.RWMutex` is left out: a request is handled from start to end before
  the next one, and every `Lock`/`Unlock` pair brackets one map access.
-/

namespace StudentAPI

/-! ## Data model -/

/-- Go `type Student struct { ID int; Name string; Age int }`. -/
structure Student where
  ID : Int
  Name : String
  Age : Int
deriving DecidableEq

/-- Go `type datastore struct { m map[string]Student; *sync.RWMutex }`: the
map `m` as an association list. The lock is left out: requests are handled
one at a time. -/
abbrev datastore := List (String × Student)

/-- Map read `u, ok := m[k]`. -/
def datastore.get (m : datastore) (k : String) : Option Student :=
  match m with
  | [] => none
  | (k', v) :: rest => if k' = k then some v else datastore.get rest k

/-- Map write `m[k] = v`: the old entry of `k`, if any, is replaced. -/
def datastore.set (m : datastore) (k : String) (v : Student) : datastore :=
  (k, v) :: m.filter (fun p => decide (p.1 ≠ k))

/-- Go `strconv.Itoa`: decimal form, with a leading `-` for negative numbers. -/
def Itoa (i : Int) : String :=
  match i with
  | Int.ofNat n => String.mk (Nat.toDigits 10 n)
  | Int.negSucc n => String.mk ('-' :: Nat.toDigits 10 (n + 1))

/-! ## Regular expressions -/

/-- A literal run of characters. -/
def lit (cs : List Char) : RegularExpression Char :=
  cs.foldr (fun c r => RegularExpression.char c * r) 1

/-- The class `\d`: the ten ASCII digits. -/
def digit : RegularExpression Char :=
  "0123456789".data.foldr (fun c r => RegularExpression.char c + r) 0

/-- The pattern `getStudent = regexp.MustCompile("^\/users\/(\d+)$")`. -/
def getStudent : RegularExpression Char :=
  lit "/users/".data * (digit * RegularExpression.star digit)

/-- The pattern `RegisterStudent = regexp.MustCompile("^\/users[\/]*$")`. -/
def RegisterStudent : RegularExpression Char :=
  lit "/users".data * RegularExpression.star (RegularExpression.char '/')

/-- Go `re.MatchString(s)` for an anchored pattern. -/
def MatchString (re : RegularExpression Char) (s : String) : Bool :=
  re.rmatch s.data

/-- Go `getStudent.FindStringSubmatch(path)`: nil when the path does not match,
otherwise the whole match followed by the text of the one capture group. The
group starts after the seven characters of `/users/` and ends at `$`. -/
def getStudent.FindStringSubmatch (path : String) : List String :=
  if MatchString getStudent path then [path, String.mk (path.data.drop 7)] else []

/-! ## net/http -/

/-- Calls a handler makes on its `http.ResponseWriter`. -/
inductive Call where
  | headerSet (key value : String)
  | writeHeader (code : Nat)
  | write (bytes : String)
deriving DecidableEq

/-- State of an `http.ResponseWriter`: the header map the handler edits, the
status line once it is sent, the header map as it was sent with the status
line, the body written so far, and the calls in the order they were made. -/
structure ResponseWriter where
  header : List (String × String)
  status : Option Nat
  sent : List (String × String)
  body : String
  calls : List Call
deriving DecidableEq

/-- A fresh writer, as handed to a handler. -/
def ResponseWriter.fresh : ResponseWriter :=
  { header := [], status := none, sent := [], body := "", calls := [] }

/-- One character of `textproto.CanonicalMIMEHeaderKey`: upper case at the
start and after `-`, lower case elsewhere. -/
def canonicalFrom (upper : Bool) : List Char → List Char
  | [] => []
  | c :: cs => (if upper then c.toUpper else c.toLower) :: canonicalFrom (c = '-') cs

/-- Go `textproto.CanonicalMIMEHeaderKey` on a key made of token characters. -/
def CanonicalMIMEHeaderKey (k : String) : String :=
  String.mk (canonicalFrom true k.data)

/-- Go `w.Header().Set(k, v)`: the key is stored in canonical form. -/
def ResponseWriter.HeaderSet (w : ResponseWriter) (k v : String) : ResponseWriter :=
  { w with
    header := (CanonicalMIMEHeaderKey k, v) ::
      w.header.filter (fun p => decide (p.1 ≠ CanonicalMIMEHeaderKey k))
    calls := w.calls ++ [Call.headerSet k v] }

/-- Go `w.WriteHeader(code)`: the first call sends the status line with the
header map of that moment; a later call is ignored. -/
def ResponseWriter.WriteHeader (w : ResponseWriter) (code : Nat) : ResponseWriter :=
  match w.status with
  | some _ => { w with calls := w.calls ++ [Call.writeHeader code] }
  | none =>
    { w with status := some code, sent := w.header,
             calls := w.calls ++ [Call.writeHeader code] }

/-- Go `w.Write(b)`: sends status 200 first when no status was sent yet. -/
def ResponseWriter.Write (w : ResponseWriter) (b : String) : ResponseWriter :=
  match w.status with
  | some _ => { w with body := w.body ++ b, calls := w.calls ++ [Call.write b] }
  | none =>
    { w with status := some 200, sent := w.header, body := w.body ++ b,
             calls := w.calls ++ [Call.write b] }

/-- Value of a header in the response as sent. -/
def ResponseWriter.sentHeader (w : ResponseWriter) (k : String) : Option String :=
  (w.sent.find? (fun p => decide (p.1 = k))).map Prod.snd

/-- The parts of `*http.Request` the handlers read. -/
structure Request where
  Method : String
  Path : String
  Body : String
deriving DecidableEq

def MethodGet : String := "GET"
def MethodPost : String := "POST"
def StatusOK : Nat := 200
def StatusNotFound : Nat := 404
def StatusInternalServerError : Nat := 500

/-- The calls into `encoding/json`: `json.Marshal` on a `Student` and on a
`[]Student`, and `json.NewDecoder(r.Body).Decode(&student)`; `none` is a
non-nil `err`. -/
structure Json where
  Marshal : Student → Option String
  MarshalList : List Student → Option String
  Decode : String → Option Student

/-! ## Handlers -/

def internalServerError (w : ResponseWriter) : ResponseWriter :=
  (w.WriteHeader StatusInternalServerError).Write "internal server error"

def notFound (w : ResponseWriter) : ResponseWriter :=
  (w.WriteHeader StatusNotFound).Write "not found"

/-- The slice `students` built by `List` under the read lock. The order of a
Go map range is unspecified; the model takes the order of the list. -/
def snapshot (m : datastore) : List Student :=
  m.map Prod.snd

def StudentHandler.List (json : Json) (m : datastore) (w : ResponseWriter) : ResponseWriter :=
  let students := snapshot m
  match json.MarshalList students with
  | none => internalServerError w
  | some jsonBytes => (w.WriteHeader StatusOK).Write jsonBytes

def StudentHandler.Get (json : Json) (m : datastore) (w : ResponseWriter) (r : Request) :
    ResponseWriter :=
  match getStudent.FindStringSubmatch r.Path with
  | _ :: key :: _ =>
    match m.get key with
    | none => (w.WriteHeader StatusNotFound).Write "user not found"
    | some u =>
      match json.Marshal u with
      | none => internalServerError w
      | some jsonBytes => (w.WriteHeader StatusOK).Write jsonBytes
  | _ => notFound w

def StudentHandler.Create (json : Json) (m : datastore) (w : ResponseWriter) (r : Request) :
    datastore × ResponseWriter :=
  match json.Decode r.Body with
  | none => (m, internalServerError w)
  | some student =>
    let str := Itoa student.ID
    let m' := m.set str student
    match json.Marshal student with
    | none => (m', internalServerError w)
    | some jsonBytes => (m', (w.WriteHeader StatusOK).Write jsonBytes)

def StudentHandler.ServeHTTP (json : Json) (m : datastore) (w : ResponseWriter) (r : Request) :
    datastore × ResponseWriter :=
  let w := w.HeaderSet "content-type" "application/json"
  if r.Method = MethodGet ∧ MatchString getStudent r.Path = true then
    (m, StudentHandler.Get json m w r)
  else if r.Method = MethodPost ∧ MatchString RegisterStudent r.Path = true then
    StudentHandler.Create json m w r
  else
    (m, notFound w)

/-- The store literal of `main`. -/
def startupStore : datastore :=
  [("Data", { ID := 1, Name := "bob", Age := 21 })]

/-- One request against a store, on a fresh writer. -/
def serve (json : Json) (m : datastore) (r : Request) : datastore × ResponseWriter :=
  StudentHandler.ServeHTTP json m ResponseWriter.fresh r

/-- The store after a sequence of requests handled one after the other. -/
def run (json : Json) (m : datastore) (rs : List Request) : datastore :=
  rs.foldl (fun st r => (serve json st r).1) m

/-! ## The mux of `main` -/

/-- The patterns of `mux.Handle("/Student", userH)` and
`mux.Handle("/Student/{id}", userH)`. -/
def muxPatterns : List String :=
  ["/Student", "/Student/\x7bid\x7d"]

/-- The segments of a path or pattern: the text between the slashes. -/
def splitSlash : List Char → List (List Char)
  | [] => [[]]
  | c :: cs =>
    match splitSlash cs with
    | [] => [[]]
    | seg :: rest => if c = '/' then [] :: seg :: rest else (c :: seg) :: rest

/-- A pattern segment written in braces is a wildcard. -/
def isWildcard (seg : List Char) : Bool :=
  seg.head? = some '\x7b' && seg.getLast? = some '\x7d'

/-- A wildcard takes one non-empty segment, a literal takes itself. -/
def segmentMatches (pat seg : List Char) : Bool :=
  if isWildcard pat then !seg.isEmpty else decide (pat = seg)

/-- Segment lists match when they have the same length and match pairwise. -/
def segmentsMatch : List (List Char) → List (List Char) → Bool
  | [], [] => true
  | p :: ps, x :: xs => segmentMatches p x && segmentsMatch ps xs
  | _, _ => false

/-- Go `http.ServeMux` matching of a path against a pattern without a method,
a host or a trailing slash. -/
def patternMatches (pattern path : String) : Bool :=
  segmentsMatch (splitSlash pattern.data) (splitSlash path.data)

/-- The mux of `main` hands the request to `userH`. -/
def muxAccepts (path : String) : Bool :=
  muxPatterns.any (fun pattern => patternMatches pattern path)

/-! ## A concrete codec for the wire format

`wireJson` writes a record the way `json.Marshal` does when the name needs no
escaping, and reads back bodies of exactly that layout. It instantiates `Json`
in the concrete scenarios below. -/

/-- Characters that `json.Marshal` copies into a string literal unchanged
(printable ASCII without the quote, the backslash and the HTML characters). -/
def plainChar (c : Char) : Bool :=
  decide (32 ≤ c.toNat) && decide (c.toNat ≤ 126) &&
    !(c = '"' || c = '\\' || c = '<' || c = '>' || c = '&')

/-- The range of Go `int` on a 64-bit platform. -/
def inIntRange (i : Int) : Bool :=
  decide (-(2 : Int) ^ 63 ≤ i) && decide (i < (2 : Int) ^ 63)

def wireMarshal (s : Student) : Option String :=
  if s.Name.data.all plainChar then
    some ("\x7b\"id\":" ++ Itoa s.ID ++ ",\"name\":\"" ++ s.Name ++ "\",\"age\":" ++
      Itoa s.Age ++ "\x7d")
  else none

def wireMarshalList (l : List Student) : Option String :=
  (l.mapM wireMarshal).map (fun items => "[" ++ ",".intercalate items ++ "]")

/-- Remove a literal from the front of the input. -/
def dropLit : List Char → List Char → Option (List Char)
  | [], s => some s
  | _ :: _, [] => none
  | a :: p, b :: s => if a = b then dropLit p s else none

/-- Read a JSON natural number: `0`, or digits not starting with `0`. -/
def readNat (s : List Char) : Option (Nat × List Char) :=
  let rest := s.dropWhile Char.isDigit
  match s.takeWhile Char.isDigit with
  | [] => none
  | ['0'] => some (0, rest)
  | '0' :: _ => none
  | ds => some (ds.foldl (fun n c => 10 * n + (c.toNat - 48)) 0, rest)

/-- Read a JSON integer. -/
def readInt (s : List Char) : Option (Int × List Char) :=
  match s with
  | '-' :: s => (readNat s).map (fun p => (-(p.1 : Int), p.2))
  | s => (readNat s).map (fun p => ((p.1 : Int), p.2))

/-- Read the rest of a string literal up to and including the closing quote. -/
def readName (s : List Char) : Option (String × List Char) :=
  match s.dropWhile plainChar with
  | '"' :: rest => some (String.mk (s.takeWhile plainChar), rest)
  | _ => none

def wireDecode (body : String) : Option Student := do
  let s ← dropLit "\x7b\"id\":".data body.data
  let (id, s) ← readInt s
  let s ← dropLit ",\"name\":\"".data s
  let (name, s) ← readName s
  let s ← dropLit ",\"age\":".data s
  let (age, s) ← readInt s
  let s ← dropLit "\x7d".data s
  if s = [] ∧ inIntRange id = true ∧ inIntRange age = true then
    some { ID := id, Name := name, Age := age }
  else none

def wireJson : Json :=
  { Marshal := wireMarshal, MarshalList := wireMarshalList, Decode := wireDecode }

/-! ## The routing patterns -/

theorem lit_rmatch_iff (cs x : List Char) : (lit cs).rmatch x = true ↔ x = cs := by
  induction cs generalizing x with
  | nil => exact RegularExpression.one_rmatch_iff x
  | cons c cs ih =>
    have h : lit (c :: cs) = RegularExpression.char c * lit cs := rfl
    rw [h, RegularExpression.mul_rmatch_iff]
    constructor
    · rintro ⟨t, u, rfl, ht, hu⟩
      rw [RegularExpression.char_rmatch_iff] at ht
      rw [ih] at hu
      subst ht; subst hu; rfl
    · rintro rfl
      exact ⟨[c], cs, rfl, (RegularExpression.char_rmatch_iff c [c]).2 rfl, (ih cs).2 rfl⟩

theorem isDigit_iff_mem (c : Char) : c.isDigit = true ↔ c ∈ "0123456789".data := by
  constructor
  · intro h
    simp only [Char.isDigit, Bool.and_eq_true, decide_eq_true_eq] at h
    obtain ⟨h1, h2⟩ := h
    have h1' : 48 ≤ c.val.toNat := h1
    have h2' : c.val.toNat ≤ 57 := h2
    have hc : c = Char.ofNat c.val.toNat := (Char.ofNat_toNat c).symm
    rw [hc]
    generalize c.val.toNat = n at h1' h2'
    interval_cases n <;> decide
  · intro h
    simp only [List.mem_cons] at h
    rcases h with h | h | h | h | h | h | h | h | h | h | h
    all_goals first | (subst h; decide) | (exact absurd h (List.not_mem_nil _))

theorem digit_rmatch_iff (t : List Char) :
    digit.rmatch t = true ↔ ∃ c, c.isDigit = true ∧ t = [c] := by
  have h : digit = RegularExpression.char '0' + (RegularExpression.char '1' +
      (RegularExpression.char '2' + (RegularExpression.char '3' +
      (RegularExpression.char '4' + (RegularExpression.char '5' +
      (RegularExpression.char '6' + (RegularExpression.char '7' +
      (RegularExpression.char '8' + (RegularExpression.char '9' + 0))))))))) := rfl
  rw [h]
  simp only [RegularExpression.add_rmatch_iff, RegularExpression.char_rmatch_iff,
    RegularExpression.zero_rmatch, isDigit_iff_mem]
  constructor
  · intro hx
    rcases hx with hx | hx | hx | hx | hx | hx | hx | hx | hx | hx | hx
    all_goals first | (subst hx; exact ⟨_, by decide, rfl⟩) | (exact absurd hx (by simp))
  · rintro ⟨c, hc, rfl⟩
    simp only [List.mem_cons] at hc
    rcases hc with h | h | h | h | h | h | h | h | h | h | h
    all_goals first | (subst h; simp) | (exact absurd h (List.not_mem_nil _))

theorem star_digit_rmatch_iff (u : List Char) :
    (RegularExpression.star digit).rmatch u = true ↔ ∀ c ∈ u, c.isDigit = true := by
  rw [RegularExpression.star_rmatch_iff]
  constructor
  · rintro ⟨S, rfl, hS⟩ c hc
    rw [List.mem_flatten] at hc
    obtain ⟨t, ht, hct⟩ := hc
    obtain ⟨d, hd, rfl⟩ := (digit_rmatch_iff t).1 (hS t ht).2
    rw [List.mem_singleton] at hct
    exact hct ▸ hd
  · intro h
    refine ⟨u.map (fun c => [c]), ?_, ?_⟩
    · clear h
      induction u with
      | nil => rfl
      | cons a u ih => simp [List.flatten, ← ih]
    · intro t ht
      rw [List.mem_map] at ht
      obtain ⟨c, hc, rfl⟩ := ht
      exact ⟨by simp, (digit_rmatch_iff [c]).2 ⟨c, h c hc, rfl⟩⟩

theorem star_slash_rmatch_iff (u : List Char) :
    (RegularExpression.star (RegularExpression.char '/')).rmatch u = true ↔
      ∃ k, u = List.replicate k '/' := by
  rw [RegularExpression.star_rmatch_iff]
  constructor
  · rintro ⟨S, rfl, hS⟩
    refine ⟨S.length, ?_⟩
    induction S with
    | nil => rfl
    | cons t S ih =>
      have ht := (RegularExpression.char_rmatch_iff '/' t).1 (hS t (List.mem_cons_self _ _)).2
      have := ih (fun t' ht' => hS t' (List.mem_cons_of_mem _ ht'))
      simp [List.flatten, ht, this, List.replicate_succ]
  · rintro ⟨k, rfl⟩
    refine ⟨List.replicate k ['/'], ?_, ?_⟩
    · induction k with
      | zero => rfl
      | succ k ih => simp [List.replicate_succ, List.flatten, ← ih]
    · intro t ht
      rw [List.mem_replicate] at ht
      obtain ⟨_, rfl⟩ := ht
      exact ⟨by simp, (RegularExpression.char_rmatch_iff '/' ['/']).2 rfl⟩

/-- The paths `getStudent` accepts. -/
theorem getStudent_match_iff (path : String) :
    MatchString getStudent path = true ↔
      ∃ ds : List Char, ds ≠ [] ∧ (∀ c ∈ ds, c.isDigit = true) ∧
        path.data = "/users/".data ++ ds := by
  unfold MatchString getStudent
  rw [RegularExpression.mul_rmatch_iff]
  constructor
  · rintro ⟨t, u, hx, ht, hu⟩
    rw [lit_rmatch_iff] at ht
    rw [RegularExpression.mul_rmatch_iff] at hu
    obtain ⟨a, b, rfl, ha, hb⟩ := hu
    obtain ⟨d, hd, rfl⟩ := (digit_rmatch_iff a).1 ha
    rw [star_digit_rmatch_iff] at hb
    refine ⟨[d] ++ b, by simp, ?_, by rw [hx, ht]⟩
    intro c hc
    rcases List.mem_append.1 hc with h | h
    · rw [List.mem_singleton] at h; exact h ▸ hd
    · exact hb c h
  · rintro ⟨ds, hne, hds, hx⟩
    refine ⟨"/users/".data, ds, hx, (lit_rmatch_iff _ _).2 rfl, ?_⟩
    rw [RegularExpression.mul_rmatch_iff]
    cases ds with
    | nil => exact absurd rfl hne
    | cons d ds =>
      refine ⟨[d], ds, rfl, (digit_rmatch_iff [d]).2 ⟨d, hds d (List.mem_cons_self _ _), rfl⟩, ?_⟩
      rw [star_digit_rmatch_iff]
      exact fun c hc => hds c (List.mem_cons_of_mem _ hc)

/-- The paths `RegisterStudent` accepts. -/
theorem RegisterStudent_match_iff (path : String) :
    MatchString RegisterStudent path = true ↔
      ∃ k : Nat, path.data = "/users".data ++ List.replicate k '/' := by
  unfold MatchString RegisterStudent
  rw [RegularExpression.mul_rmatch_iff]
  constructor
  · rintro ⟨t, u, hx, ht, hu⟩
    rw [lit_rmatch_iff] at ht
    obtain ⟨k, rfl⟩ := (star_slash_rmatch_iff u).1 hu
    exact ⟨k, by rw [hx, ht]⟩
  · rintro ⟨k, hx⟩
    exact ⟨"/users".data, _, hx, (lit_rmatch_iff _ _).2 rfl, (star_slash_rmatch_iff _).2 ⟨k, rfl⟩⟩

/-! ## Decimal strings -/

theorem digitChar_isDigit (d : Nat) (h : d < 10) : (Nat.digitChar d).isDigit = true := by
  interval_cases d <;> decide

theorem toDigitsCore_all (fuel : Nat) : ∀ (n : Nat) (ds : List Char),
    (∀ c ∈ ds, c.isDigit = true) → ∀ c ∈ Nat.toDigitsCore 10 fuel n ds, c.isDigit = true := by
  induction fuel with
  | zero => intro n ds h; simpa [Nat.toDigitsCore] using h
  | succ fuel ih =>
    intro n ds h
    have hd : ∀ c ∈ Nat.digitChar (n % 10) :: ds, c.isDigit = true := by
      intro c hc
      rcases List.mem_cons.1 hc with rfl | hc
      · exact digitChar_isDigit _ (Nat.mod_lt _ (by decide))
      · exact h c hc
    simp only [Nat.toDigitsCore]
    split
    · exact hd
    · exact ih _ _ hd

theorem toDigitsCore_ne_nil (fuel : Nat) : ∀ (n : Nat) (ds : List Char),
    ds ≠ [] → Nat.toDigitsCore 10 fuel n ds ≠ [] := by
  induction fuel with
  | zero => intro n ds h; simpa [Nat.toDigitsCore] using h
  | succ fuel ih =>
    intro n ds _
    simp only [Nat.toDigitsCore]
    split
    · simp
    · exact ih _ _ (by simp)

theorem toDigits_all (n : Nat) : ∀ c ∈ Nat.toDigits 10 n, c.isDigit = true :=
  toDigitsCore_all _ _ _ (by simp)

theorem toDigits_ne_nil (n : Nat) : Nat.toDigits 10 n ≠ [] := by
  unfold Nat.toDigits
  simp only [Nat.toDigitsCore]
  split
  · simp
  · exact toDigitsCore_ne_nil _ _ _ (by simp)

/-- The decimal form of a non-negative number is a non-empty run of digits. -/
theorem Itoa_of_nonneg (i : Int) (h : 0 ≤ i) :
    (Itoa i).data ≠ [] ∧ ∀ c ∈ (Itoa i).data, c.isDigit = true := by
  cases i with
  | ofNat n => exact ⟨toDigits_ne_nil n, toDigits_all n⟩
  | negSucc n => exact absurd h (by simp [Int.negSucc_lt_zero])

/-- The decimal form of a number starts with a digit or with `-`. -/
theorem Itoa_head (i : Int) :
    ∃ c cs, (Itoa i).data = c :: cs ∧ (c.isDigit = true ∨ c = '-') := by
  cases i with
  | ofNat n =>
    cases h : Nat.toDigits 10 n with
    | nil => exact absurd h (toDigits_ne_nil n)
    | cons c cs =>
      exact ⟨c, cs, h, Or.inl (toDigits_all n c (h ▸ List.mem_cons_self _ _))⟩
  | negSucc n => exact ⟨'-', _, rfl, Or.inr rfl⟩

theorem Itoa_ne_Data (i : Int) : Itoa i ≠ "Data" := by
  intro h
  obtain ⟨c, cs, hc, hd⟩ := Itoa_head i
  rw [h] at hc
  have : c = 'D' := by
    have := (List.cons.inj hc).1
    exact this.symm
  subst this
  rcases hd with hd | hd
  · exact absurd hd (by decide)
  · exact absurd hd (by decide)

/-! ## The store -/

theorem datastore.get_filter_ne (m : datastore) (k k' : String) (h : k' ≠ k) :
    datastore.get (m.filter (fun p => decide (p.1 ≠ k))) k' = datastore.get m k' := by
  induction m with
  | nil => rfl
  | cons p m ih =>
    obtain ⟨a, v⟩ := p
    rw [List.filter_cons]
    by_cases ha : a = k
    · have hne : ¬ a = k' := fun e => h (e ▸ ha)
      have hd : decide ((a, v).1 ≠ k) = false := by simp [ha]
      rw [hd]
      simp only [Bool.false_eq_true, if_false, datastore.get, hne]
      exact ih
    · have hd : decide ((a, v).1 ≠ k) = true := by simp [ha]
      rw [hd]
      simp only [if_true, datastore.get]
      rw [ih]

theorem datastore.get_set_self (m : datastore) (k : String) (v : Student) :
    (m.set k v).get k = some v := by
  simp [datastore.set, datastore.get]

theorem datastore.get_set_of_ne (m : datastore) (k k' : String) (v : Student) (h : k' ≠ k) :
    (m.set k v).get k' = m.get k' := by
  have hk : ¬ k = k' := fun e => h e.symm
  simp only [datastore.set, datastore.get, hk, if_false]
  exact datastore.get_filter_ne m k k' h

theorem datastore.get_eq_none_iff (m : datastore) (k : String) :
    m.get k = none ↔ k ∉ m.map Prod.fst := by
  induction m with
  | nil => simp [datastore.get]
  | cons p m ih =>
    obtain ⟨a, v⟩ := p
    by_cases ha : a = k
    · simp [datastore.get, ha]
    · have : ¬ k = a := fun e => ha e.symm
      simp [datastore.get, ha, ih, this]

theorem datastore.get_of_mem (m : datastore) (k : String) (v : Student)
    (hnd : (m.map Prod.fst).Nodup) (h : (k, v) ∈ m) : m.get k = some v := by
  induction m with
  | nil => exact absurd h (List.not_mem_nil _)
  | cons p m ih =>
    obtain ⟨a, u⟩ := p
    rw [List.map_cons, List.nodup_cons] at hnd
    rcases List.mem_cons.1 h with e | hm
    · cases e; simp [datastore.get]
    · have hne : a ≠ k := by
        intro e
        have hk : k ∈ m.map Prod.fst := List.mem_map_of_mem Prod.fst hm
        exact hnd.1 (by rw [e]; exact hk)
      simp [datastore.get, hne, ih hnd.2 hm]

theorem datastore.mem_of_get (m : datastore) (k : String) (v : Student) (h : m.get k = some v) :
    (k, v) ∈ m := by
  induction m with
  | nil => simp [datastore.get] at h
  | cons p m ih =>
    obtain ⟨a, u⟩ := p
    by_cases ha : a = k
    · simp [datastore.get, ha] at h
      simp [ha, h]
    · simp [datastore.get, ha] at h
      exact List.mem_cons_of_mem _ (ih h)

theorem datastore.set_nodup (m : datastore) (k : String) (v : Student)
    (hnd : (m.map Prod.fst).Nodup) : ((m.set k v).map Prod.fst).Nodup := by
  simp only [datastore.set, List.map_cons, List.nodup_cons]
  constructor
  · simp [List.mem_map, List.mem_filter]
  · exact (List.Nodup.sublist ((List.filter_sublist m).map Prod.fst) hnd)

theorem datastore.mem_set (m : datastore) (k : String) (v : Student) (p : String × Student)
    (h : p ∈ m.set k v) : p = (k, v) ∨ p ∈ m := by
  rcases List.mem_cons.1 h with e | hm
  · exact Or.inl e
  · exact Or.inr (List.mem_filter.1 hm).1

/-! ## Responses -/

/-- The writer after the first statement of `ServeHTTP`. -/
theorem fresh_headerSet :
    ResponseWriter.fresh.HeaderSet "content-type" "application/json" =
      { header := [("Content-Type", "application/json")], status := none, sent := [],
        body := "", calls := [Call.headerSet "content-type" "application/json"] } := by
  decide

/-- A status followed by a body on the writer `ServeHTTP` passes on. -/
theorem reply_eq (code : Nat) (b : String) :
    ((ResponseWriter.fresh.HeaderSet "content-type" "application/json").WriteHeader
        code).Write b =
      { header := [("Content-Type", "application/json")], status := some code,
        sent := [("Content-Type", "application/json")], body := b,
        calls := [Call.headerSet "content-type" "application/json",
                  Call.writeHeader code, Call.write b] } := by
  rw [fresh_headerSet]
  simp [ResponseWriter.WriteHeader, ResponseWriter.Write]

theorem serve_get (json : Json) (m : datastore) (r : Request) (hm : r.Method = MethodGet)
    (hp : MatchString getStudent r.Path = true) :
    serve json m r =
      (m, StudentHandler.Get json m
        (ResponseWriter.fresh.HeaderSet "content-type" "application/json") r) := by
  simp [serve, StudentHandler.ServeHTTP, hm, hp]

theorem serve_post (json : Json) (m : datastore) (r : Request) (hm : r.Method = MethodPost)
    (hp : MatchString RegisterStudent r.Path = true) :
    serve json m r =
      StudentHandler.Create json m
        (ResponseWriter.fresh.HeaderSet "content-type" "application/json") r := by
  have hne : ¬ MethodPost = MethodGet := by decide
  simp [serve, StudentHandler.ServeHTTP, hm, hp, hne]

theorem serve_default (json : Json) (m : datastore) (r : Request)
    (hg : ¬ (r.Method = MethodGet ∧ MatchString getStudent r.Path = true))
    (hc : ¬ (r.Method = MethodPost ∧ MatchString RegisterStudent r.Path = true)) :
    serve json m r =
      (m, notFound (ResponseWriter.fresh.HeaderSet "content-type" "application/json")) := by
  simp only [serve, StudentHandler.ServeHTTP]
  rw [if_neg hg, if_neg hc]

/-- The key `Get` looks up on a matching path is the digit run after `/users/`. -/
theorem FindStringSubmatch_of_digits (ds : List Char) (hne : ds ≠ [])
    (hds : ∀ c ∈ ds, c.isDigit = true) :
    getStudent.FindStringSubmatch ("/users/" ++ String.mk ds) =
      ["/users/" ++ String.mk ds, String.mk ds] := by
  have hm : MatchString getStudent ("/users/" ++ String.mk ds) = true :=
    (getStudent_match_iff _).2 ⟨ds, hne, hds, rfl⟩
  simp only [getStudent.FindStringSubmatch, hm, if_true]
  rfl

/-- What `Get` answers on a path `/users/` followed by digits. -/
theorem get_of_digits (json : Json) (m : datastore) (method body : String) (ds : List Char)
    (hne : ds ≠ []) (hds : ∀ c ∈ ds, c.isDigit = true) :
    StudentHandler.Get json m
        (ResponseWriter.fresh.HeaderSet "content-type" "application/json")
        ⟨method, "/users/" ++ String.mk ds, body⟩ =
      match m.get (String.mk ds) with
      | none => ((ResponseWriter.fresh.HeaderSet "content-type" "application/json").WriteHeader
          StatusNotFound).Write "user not found"
      | some u =>
        match json.Marshal u with
        | none => internalServerError
            (ResponseWriter.fresh.HeaderSet "content-type" "application/json")
        | some jsonBytes =>
          ((ResponseWriter.fresh.HeaderSet "content-type" "application/json").WriteHeader
            StatusOK).Write jsonBytes := by
  simp only [StudentHandler.Get, FindStringSubmatch_of_digits ds hne hds]

/-- The store after one request: unchanged, or one record written under the
decimal form of its id by a `Create` whose body parsed. -/
theorem serve_store (json : Json) (m : datastore) (r : Request) :
    (serve json m r).1 = m ∨
      ∃ s, r.Method = MethodPost ∧ MatchString RegisterStudent r.Path = true ∧
        json.Decode r.Body = some s ∧ (serve json m r).1 = m.set (Itoa s.ID) s := by
  by_cases hg : r.Method = MethodGet ∧ MatchString getStudent r.Path = true
  · left; rw [serve_get json m r hg.1 hg.2]
  · by_cases hc : r.Method = MethodPost ∧ MatchString RegisterStudent r.Path = true
    · rw [serve_post json m r hc.1 hc.2]
      cases hd : json.Decode r.Body with
      | none => left; simp [StudentHandler.Create, hd]
      | some s =>
        right
        refine ⟨s, hc.1, hc.2, rfl, ?_⟩
        simp only [StudentHandler.Create, hd]
        cases json.Marshal s <;> rfl
    · left; rw [serve_default json m r hg hc]

theorem getStudent_match_iff_path (path : String) :
    MatchString getStudent path = true ↔
      ∃ ds : List Char, ds ≠ [] ∧ (∀ c ∈ ds, c.isDigit = true) ∧
        path = "/users/" ++ String.mk ds := by
  rw [getStudent_match_iff]
  constructor
  · rintro ⟨ds, h1, h2, h3⟩
    exact ⟨ds, h1, h2, String.ext h3⟩
  · rintro ⟨ds, h1, h2, h3⟩
    exact ⟨ds, h1, h2, by rw [h3]; rfl⟩

theorem RegisterStudent_match_iff_path (path : String) :
    MatchString RegisterStudent path = true ↔
      ∃ k : Nat, path = "/users" ++ String.mk (List.replicate k '/') := by
  rw [RegisterStudent_match_iff]
  constructor
  · rintro ⟨k, h⟩
    exact ⟨k, String.ext h⟩
  · rintro ⟨k, h⟩
    exact ⟨k, by rw [h]; rfl⟩

/-- Every response of `ServeHTTP` is one status line and one body write on the
writer that already carries the content type. -/
theorem serve_reply (json : Json) (m : datastore) (r : Request) :
    ∃ code b, (serve json m r).2 =
      ((ResponseWriter.fresh.HeaderSet "content-type" "application/json").WriteHeader
        code).Write b := by
  by_cases hg : r.Method = MethodGet ∧ MatchString getStudent r.Path = true
  · rw [serve_get json m r hg.1 hg.2]
    simp only [StudentHandler.Get]
    split
    · split
      · exact ⟨_, _, rfl⟩
      · split
        · exact ⟨_, _, rfl⟩
        · exact ⟨_, _, rfl⟩
    · exact ⟨_, _, rfl⟩
  · by_cases hc : r.Method = MethodPost ∧ MatchString RegisterStudent r.Path = true
    · rw [serve_post json m r hc.1 hc.2]
      simp only [StudentHandler.Create]
      split
      · exact ⟨_, _, rfl⟩
      · split
        · exact ⟨_, _, rfl⟩
        · exact ⟨_, _, rfl⟩
    · rw [serve_default json m r hg hc]
      exact ⟨_, _, rfl⟩

/-! ## Claims about routing and responses -/

/-- C3 (unknown route): a request that is neither `GET` on `/users/` followed by
one or more decimal digits nor `POST` on `/users` followed by zero or more `/`
is answered with status 404 and body `not found`, and the store is unchanged. -/
theorem unknown_route_not_found (json : Json) (m : datastore) (r : Request)
    (hget : ¬ (r.Method = "GET" ∧ ∃ ds : List Char, ds ≠ [] ∧
      (∀ c ∈ ds, c.isDigit = true) ∧ r.Path = "/users/" ++ String.mk ds))
    (hpost : ¬ (r.Method = "POST" ∧
      ∃ k : Nat, r.Path = "/users" ++ String.mk (List.replicate k '/'))) :
    (serve json m r).2.status = some 404 ∧ (serve json m r).2.body = "not found" ∧
      (serve json m r).1 = m := by
  have hg : ¬ (r.Method = MethodGet ∧ MatchString getStudent r.Path = true) :=
    fun h => hget ⟨h.1, (getStudent_match_iff_path _).1 h.2⟩
  have hc : ¬ (r.Method = MethodPost ∧ MatchString RegisterStudent r.Path = true) :=
    fun h => hpost ⟨h.1, (RegisterStudent_match_iff_path _).1 h.2⟩
  rw [serve_default json m r hg hc]
  simp [notFound, StatusNotFound, reply_eq]

/-- C3 at `DELETE /users/1` and at `GET /users/abc` on the startup store. -/
theorem unknown_route_not_found_witness :
    ((serve wireJson startupStore ⟨"DELETE", "/users/1", ""⟩).2.status = some 404 ∧
      (serve wireJson startupStore ⟨"DELETE", "/users/1", ""⟩).2.body = "not found" ∧
      (serve wireJson startupStore ⟨"DELETE", "/users/1", ""⟩).1 = startupStore) ∧
    ((serve wireJson startupStore ⟨"GET", "/users/abc", ""⟩).2.status = some 404 ∧
      (serve wireJson startupStore ⟨"GET", "/users/abc", ""⟩).2.body = "not found" ∧
      (serve wireJson startupStore ⟨"GET", "/users/abc", ""⟩).1 = startupStore) :=
  ⟨unknown_route_not_found wireJson startupStore ⟨"DELETE", "/users/1", ""⟩
      (fun h => absurd h.1 (by decide)) (fun h => absurd h.1 (by decide)),
   unknown_route_not_found wireJson startupStore ⟨"GET", "/users/abc", ""⟩
      (fun h => absurd ((getStudent_match_iff_path "/users/abc").2 h.2) (by decide))
      (fun h => absurd h.1 (by decide))⟩

/-- C5 (Create parse failure): `POST` on a path of the Create route (`/users`
among them) with a body that fails to decode is answered with status 500 and
body `internal server error`, and the store after the request is the store
before it. -/
theorem create_parse_failure (json : Json) (m : datastore) (path body : String)
    (hpath : MatchString RegisterStudent path = true)
    (hdec : json.Decode body = none) :
    (serve json m ⟨"POST", path, body⟩).2.status = some 500 ∧
      (serve json m ⟨"POST", path, body⟩).2.body = "internal server error" ∧
      (serve json m ⟨"POST", path, body⟩).1 = m := by
  rw [serve_post json m ⟨"POST", path, body⟩ rfl hpath]
  simp [StudentHandler.Create, hdec, internalServerError, StatusInternalServerError,
    reply_eq]

/-- C5 at `POST /users` with body `not-json` on the startup store. -/
theorem create_parse_failure_witness :
    (serve wireJson startupStore ⟨"POST", "/users", "not-json"⟩).2.status = some 500 ∧
      (serve wireJson startupStore ⟨"POST", "/users", "not-json"⟩).2.body =
        "internal server error" ∧
      (serve wireJson startupStore ⟨"POST", "/users", "not-json"⟩).1 = startupStore :=
  create_parse_failure wireJson startupStore "/users" "not-json" (by decide) (by decide)

/-- C6 (Content-Type): for every request and store, the response sent by
`ServeHTTP` has a status line and carries `Content-Type: application/json`
in the header sent with it; the handler sets the header in its first call,
makes no other header call, and writes the status code in its second call. -/
theorem content_type_on_every_response (json : Json) (m : datastore) (r : Request) :
    (serve json m r).2.status.isSome = true ∧
      (serve json m r).2.sentHeader "Content-Type" = some "application/json" ∧
      ∃ code b, (serve json m r).2.calls =
        [Call.headerSet "content-type" "application/json", Call.writeHeader code,
          Call.write b] ∧ (serve json m r).2.status = some code := by
  obtain ⟨code, b, h⟩ := serve_reply json m r
  rw [h, reply_eq]
  exact ⟨rfl, rfl, code, b, rfl, rfl⟩

/-! ## Claims about Create followed by Get -/

/-- The store after a `Create` whose body parsed. -/
theorem create_store (json : Json) (m : datastore) (path body : String) (s : Student)
    (hpath : MatchString RegisterStudent path = true) (hdec : json.Decode body = some s) :
    (serve json m ⟨"POST", path, body⟩).1 = m.set (Itoa s.ID) s := by
  rw [serve_post json m ⟨"POST", path, body⟩ rfl hpath]
  simp only [StudentHandler.Create, hdec]
  cases json.Marshal s <;> rfl

/-- A `GET /users/{id}` for a stored record with a non-negative id. -/
theorem get_stored (json : Json) (m : datastore) (s : Student) (b body : String)
    (hid : 0 ≤ s.ID) (hm : m.get (Itoa s.ID) = some s) (henc : json.Marshal s = some b) :
    (serve json m ⟨"GET", "/users/" ++ Itoa s.ID, body⟩).2.status = some 200 ∧
      (serve json m ⟨"GET", "/users/" ++ Itoa s.ID, body⟩).2.body = b := by
  obtain ⟨hne, hds⟩ := Itoa_of_nonneg s.ID hid
  have hp : MatchString getStudent ("/users/" ++ Itoa s.ID) = true :=
    (getStudent_match_iff_path _).2 ⟨(Itoa s.ID).data, hne, hds, rfl⟩
  rw [serve_get json m ⟨"GET", "/users/" ++ Itoa s.ID, body⟩ rfl hp]
  have hg := get_of_digits json m "GET" body (Itoa s.ID).data hne hds
  have he : String.mk (Itoa s.ID).data = Itoa s.ID := rfl
  rw [he] at hg
  rw [hg, hm]
  simp [henc, StatusOK, reply_eq]

/-- The decimal form of a negative number starts with `-`. -/
theorem Itoa_of_neg (i : Int) (h : i < 0) : ∃ cs, (Itoa i).data = '-' :: cs := by
  cases i with
  | ofNat n => exact absurd h (by simp)
  | negSucc n => exact ⟨_, rfl⟩

/-- A `GET` on `/users/` followed by the decimal form of a negative id is a
route miss, whatever the store holds. -/
theorem get_negative_id (json : Json) (m : datastore) (i : Int) (body : String)
    (h : i < 0) :
    (serve json m ⟨"GET", "/users/" ++ Itoa i, body⟩).2.status = some 404 ∧
      (serve json m ⟨"GET", "/users/" ++ Itoa i, body⟩).2.body = "not found" := by
  obtain ⟨cs, hcs⟩ := Itoa_of_neg i h
  have hg : ¬ (MethodGet = MethodGet ∧
      MatchString getStudent ("/users/" ++ Itoa i) = true) := by
    rintro ⟨_, hm⟩
    obtain ⟨ds, _, hds, hp⟩ := (getStudent_match_iff _).1 hm
    have hp' : "/users/".data ++ (Itoa i).data = "/users/".data ++ ds := hp
    have hd : ds = '-' :: cs := by
      rw [← List.append_cancel_left hp', hcs]
    exact absurd (hds '-' (by rw [hd]; exact List.mem_cons_self _ _)) (by decide)
  have hc : ¬ (MethodGet = MethodPost ∧
      MatchString RegisterStudent ("/users/" ++ Itoa i) = true) :=
    fun x => absurd x.1 (by decide)
  rw [serve_default json m ⟨"GET", "/users/" ++ Itoa i, body⟩ hg hc]
  simp [notFound, StatusNotFound, reply_eq]

/-- C1 as amended (round trip): for every store and every Student `s`, when
`b` is the encoding of `s` (`json.Marshal` returns `b`) and the decoder parses
`b` back to `s`, handle `POST /users` with body `b` and then `GET` on `/users/`
followed by the decimal form of `s.id`. If the id is non-negative the GET
returns status 200 with body `b`; if the id is negative the GET returns
status 404 with body `not found`. -/
theorem roundtrip_post_get (json : Json) (m : datastore) (s : Student) (b body : String)
    (henc : json.Marshal s = some b) (hdec : json.Decode b = some s) :
    (0 ≤ s.ID →
      (serve json (serve json m ⟨"POST", "/users", b⟩).1
          ⟨"GET", "/users/" ++ Itoa s.ID, body⟩).2.status = some 200 ∧
        (serve json (serve json m ⟨"POST", "/users", b⟩).1
          ⟨"GET", "/users/" ++ Itoa s.ID, body⟩).2.body = b) ∧
    (s.ID < 0 →
      (serve json (serve json m ⟨"POST", "/users", b⟩).1
          ⟨"GET", "/users/" ++ Itoa s.ID, body⟩).2.status = some 404 ∧
        (serve json (serve json m ⟨"POST", "/users", b⟩).1
          ⟨"GET", "/users/" ++ Itoa s.ID, body⟩).2.body = "not found") := by
  constructor
  · intro hid
    rw [create_store json m "/users" b s (by decide) hdec]
    exact get_stored json _ s b body hid (datastore.get_set_self m _ s) henc
  · intro hneg
    exact get_negative_id json _ s.ID body hneg

/-- C1 at the record `42, alice, 30` (status 200, same body) and at the record
`-7, eve, 19` (status 404, `not found`) on the startup store. -/
theorem roundtrip_post_get_witness :
    ((serve wireJson
        (serve wireJson startupStore
          ⟨"POST", "/users", "\x7b\"id\":42,\"name\":\"alice\",\"age\":30\x7d"⟩).1
        ⟨"GET", "/users/42", ""⟩).2.status = some 200 ∧
      (serve wireJson
        (serve wireJson startupStore
          ⟨"POST", "/users", "\x7b\"id\":42,\"name\":\"alice\",\"age\":30\x7d"⟩).1
        ⟨"GET", "/users/42", ""⟩).2.body =
          "\x7b\"id\":42,\"name\":\"alice\",\"age\":30\x7d") ∧
    ((serve wireJson
        (serve wireJson startupStore
          ⟨"POST", "/users", "\x7b\"id\":-7,\"name\":\"eve\",\"age\":19\x7d"⟩).1
        ⟨"GET", "/users/" ++ Itoa (-7), ""⟩).2.status = some 404 ∧
      (serve wireJson
        (serve wireJson startupStore
          ⟨"POST", "/users", "\x7b\"id\":-7,\"name\":\"eve\",\"age\":19\x7d"⟩).1
        ⟨"GET", "/users/" ++ Itoa (-7), ""⟩).2.body = "not found") :=
  ⟨(roundtrip_post_get wireJson startupStore ⟨42, "alice", 30⟩
      "\x7b\"id\":42,\"name\":\"alice\",\"age\":30\x7d" "" (by decide) (by decide)).1
      (by decide),
   (roundtrip_post_get wireJson startupStore ⟨-7, "eve", 19⟩
      "\x7b\"id\":-7,\"name\":\"eve\",\"age\":19\x7d" "" (by decide) (by decide)).2
      (by decide)⟩

/-- C1 fails at a negative id: the record `-5, a, 1` encodes to a body that
decodes to it, `POST /users` stores it, and `GET` on `/users/` followed by `-5` is answered with
status 404 and body `not found`. -/
theorem roundtrip_negative_id_counterexample :
    wireJson.Marshal ⟨-5, "a", 1⟩ = some "\x7b\"id\":-5,\"name\":\"a\",\"age\":1\x7d" ∧
    wireJson.Decode "\x7b\"id\":-5,\"name\":\"a\",\"age\":1\x7d" = some ⟨-5, "a", 1⟩ ∧
    (serve wireJson startupStore
      ⟨"POST", "/users", "\x7b\"id\":-5,\"name\":\"a\",\"age\":1\x7d"⟩).2.status = some 200 ∧
    ¬ ((serve wireJson
        (serve wireJson startupStore
          ⟨"POST", "/users", "\x7b\"id\":-5,\"name\":\"a\",\"age\":1\x7d"⟩).1
        ⟨"GET", "/users/" ++ Itoa (-5), ""⟩).2.status = some 200 ∧
      (serve wireJson
        (serve wireJson startupStore
          ⟨"POST", "/users", "\x7b\"id\":-5,\"name\":\"a\",\"age\":1\x7d"⟩).1
        ⟨"GET", "/users/" ++ Itoa (-5), ""⟩).2.body =
          "\x7b\"id\":-5,\"name\":\"a\",\"age\":1\x7d") ∧
    (serve wireJson
        (serve wireJson startupStore
          ⟨"POST", "/users", "\x7b\"id\":-5,\"name\":\"a\",\"age\":1\x7d"⟩).1
        ⟨"GET", "/users/" ++ Itoa (-5), ""⟩).2.status = some 404 ∧
    (serve wireJson
        (serve wireJson startupStore
          ⟨"POST", "/users", "\x7b\"id\":-5,\"name\":\"a\",\"age\":1\x7d"⟩).1
        ⟨"GET", "/users/" ++ Itoa (-5), ""⟩).2.body = "not found" := by
  decide

/-- C4 as amended (overwrite): after two Creates whose bodies parsed to `a` and
then to `b` with `a.id = b.id`, the store maps the decimal form of that id to
`b`, every other key maps to what it mapped to before, and, when the id is
non-negative and `eb` is the encoding of `b`, a following `GET /users/{id}`
returns status 200 with body `eb`. -/
theorem overwrite_same_id (json : Json) (m : datastore) (a b : Student)
    (ba bb eb body : String) (hid : a.ID = b.ID)
    (hda : json.Decode ba = some a) (hdb : json.Decode bb = some b)
    (henc : json.Marshal b = some eb) :
    (serve json (serve json m ⟨"POST", "/users", ba⟩).1 ⟨"POST", "/users", bb⟩).1.get
        (Itoa b.ID) = some b ∧
      (∀ k, k ≠ Itoa b.ID →
        (serve json (serve json m ⟨"POST", "/users", ba⟩).1 ⟨"POST", "/users", bb⟩).1.get k =
          m.get k) ∧
      (0 ≤ b.ID →
        (serve json
          (serve json (serve json m ⟨"POST", "/users", ba⟩).1 ⟨"POST", "/users", bb⟩).1
          ⟨"GET", "/users/" ++ Itoa b.ID, body⟩).2.status = some 200 ∧
        (serve json
          (serve json (serve json m ⟨"POST", "/users", ba⟩).1 ⟨"POST", "/users", bb⟩).1
          ⟨"GET", "/users/" ++ Itoa b.ID, body⟩).2.body = eb) := by
  rw [create_store json m "/users" ba a (by decide) hda,
    create_store json _ "/users" bb b (by decide) hdb, hid]
  refine ⟨datastore.get_set_self _ _ b, ?_, ?_⟩
  · intro k hk
    rw [datastore.get_set_of_ne _ _ _ _ hk, datastore.get_set_of_ne _ _ _ _ hk]
  · intro hnn
    exact get_stored json _ b eb body hnn (datastore.get_set_self _ _ b) henc

/-- C4 at the records `7, a, 1` and `7, b, 2` on the startup store. -/
theorem overwrite_same_id_witness :
    (serve wireJson (serve wireJson startupStore
        ⟨"POST", "/users", "\x7b\"id\":7,\"name\":\"a\",\"age\":1\x7d"⟩).1
        ⟨"POST", "/users", "\x7b\"id\":7,\"name\":\"b\",\"age\":2\x7d"⟩).1.get "7" =
      some ⟨7, "b", 2⟩ ∧
    (serve wireJson
        (serve wireJson (serve wireJson startupStore
          ⟨"POST", "/users", "\x7b\"id\":7,\"name\":\"a\",\"age\":1\x7d"⟩).1
          ⟨"POST", "/users", "\x7b\"id\":7,\"name\":\"b\",\"age\":2\x7d"⟩).1
        ⟨"GET", "/users/7", ""⟩).2.body = "\x7b\"id\":7,\"name\":\"b\",\"age\":2\x7d" :=
  have h := overwrite_same_id wireJson startupStore ⟨7, "a", 1⟩ ⟨7, "b", 2⟩
    "\x7b\"id\":7,\"name\":\"a\",\"age\":1\x7d" "\x7b\"id\":7,\"name\":\"b\",\"age\":2\x7d"
    "\x7b\"id\":7,\"name\":\"b\",\"age\":2\x7d" "" rfl (by decide) (by decide) (by decide)
  ⟨h.1, (h.2.2 (by decide)).2⟩

/-- C4 fails at a negative id: after two Creates of records with id `-5` the
store holds the second one under `-5`, and `GET` on `/users/` followed by `-5` is answered with
status 404 and body `not found`. -/
theorem overwrite_negative_id_counterexample :
    wireJson.Decode "\x7b\"id\":-5,\"name\":\"a\",\"age\":1\x7d" = some ⟨-5, "a", 1⟩ ∧
    wireJson.Decode "\x7b\"id\":-5,\"name\":\"b\",\"age\":2\x7d" = some ⟨-5, "b", 2⟩ ∧
    wireJson.Marshal ⟨-5, "b", 2⟩ = some "\x7b\"id\":-5,\"name\":\"b\",\"age\":2\x7d" ∧
    (serve wireJson (serve wireJson startupStore
        ⟨"POST", "/users", "\x7b\"id\":-5,\"name\":\"a\",\"age\":1\x7d"⟩).1
        ⟨"POST", "/users", "\x7b\"id\":-5,\"name\":\"b\",\"age\":2\x7d"⟩).1.get (Itoa (-5)) =
      some ⟨-5, "b", 2⟩ ∧
    (serve wireJson
        (serve wireJson (serve wireJson startupStore
          ⟨"POST", "/users", "\x7b\"id\":-5,\"name\":\"a\",\"age\":1\x7d"⟩).1
          ⟨"POST", "/users", "\x7b\"id\":-5,\"name\":\"b\",\"age\":2\x7d"⟩).1
        ⟨"GET", "/users/" ++ Itoa (-5), ""⟩).2.status = some 404 ∧
    (serve wireJson
        (serve wireJson (serve wireJson startupStore
          ⟨"POST", "/users", "\x7b\"id\":-5,\"name\":\"a\",\"age\":1\x7d"⟩).1
          ⟨"POST", "/users", "\x7b\"id\":-5,\"name\":\"b\",\"age\":2\x7d"⟩).1
        ⟨"GET", "/users/" ++ Itoa (-5), ""⟩).2.body ≠
      "\x7b\"id\":-5,\"name\":\"b\",\"age\":2\x7d" := by
  decide

/-! ## Reachable stores -/

theorem run_cons (json : Json) (m : datastore) (r : Request) (rs : List Request) :
    run json m (r :: rs) = run json (serve json m r).1 rs := rfl

/-- A key present after a run was present before it or was written by a
`Create` of the run whose body parsed to a record with that decimal id. -/
theorem run_get_origin (json : Json) (rs : List Request) :
    ∀ (m : datastore) (k : String), (run json m rs).get k ≠ none →
      m.get k ≠ none ∨ ∃ r ∈ rs, r.Method = MethodPost ∧
        MatchString RegisterStudent r.Path = true ∧
        ∃ s, json.Decode r.Body = some s ∧ Itoa s.ID = k := by
  induction rs with
  | nil => intro m k h; exact Or.inl h
  | cons r rs ih =>
    intro m k h
    rw [run_cons] at h
    rcases ih _ k h with h1 | ⟨r', hr', hx⟩
    · rcases serve_store json m r with e | ⟨s, hm, hp, hd, e⟩
      · rw [e] at h1; exact Or.inl h1
      · by_cases hk : k = Itoa s.ID
        · exact Or.inr ⟨r, List.mem_cons_self _ _, hm, hp, s, hd, hk.symm⟩
        · rw [e, datastore.get_set_of_ne _ _ _ _ hk] at h1
          exact Or.inl h1
    · exact Or.inr ⟨r', List.mem_cons_of_mem _ hr', hx⟩

/-- The seeded record stays under `Data`, and keys stay distinct. -/
theorem run_seed (json : Json) (rs : List Request) :
    ∀ (m : datastore), m.get "Data" = some ⟨1, "bob", 21⟩ → (m.map Prod.fst).Nodup →
      (run json m rs).get "Data" = some ⟨1, "bob", 21⟩ ∧
        ((run json m rs).map Prod.fst).Nodup := by
  induction rs with
  | nil => intro m h1 h2; exact ⟨h1, h2⟩
  | cons r rs ih =>
    intro m h1 h2
    rw [run_cons]
    rcases serve_store json m r with e | ⟨s, _, _, _, e⟩
    · rw [e]; exact ih m h1 h2
    · rw [e]
      refine ih _ ?_ (datastore.set_nodup m _ s h2)
      rw [datastore.get_set_of_ne _ _ _ _ (fun h => Itoa_ne_Data s.ID h.symm)]
      exact h1

/-- Every entry of a reachable store is the seeded one or is keyed by the
decimal form of its id. -/
theorem run_keys (json : Json) (rs : List Request) :
    ∀ (m : datastore),
      (∀ p ∈ m, p = ("Data", ⟨1, "bob", 21⟩) ∨ p.1 = Itoa p.2.ID) →
      ∀ p ∈ run json m rs, p = ("Data", ⟨1, "bob", 21⟩) ∨ p.1 = Itoa p.2.ID := by
  induction rs with
  | nil => intro m h; exact h
  | cons r rs ih =>
    intro m h
    rw [run_cons]
    rcases serve_store json m r with e | ⟨s, _, _, _, e⟩
    · rw [e]; exact ih m h
    · rw [e]
      refine ih _ ?_
      intro p hp
      rcases datastore.mem_set m _ s p hp with rfl | hm
      · exact Or.inr rfl
      · exact h p hm

/-- A non-empty run of digits is not the seeded key. -/
theorem digits_ne_Data (n : String) (hne : n ≠ "") (hds : ∀ c ∈ n.data, c.isDigit = true) :
    n ≠ "Data" := by
  intro h
  subst h
  exact absurd (hds 'D' (by decide)) (by decide)

/-! ## Claims about the store -/

/-- C2 (unknown id): in a store reached from the startup store by any sequence
of requests, for every non-empty string `n` of decimal digits such that no
Create of the sequence parsed its body to a record whose decimal id is `n`,
`GET /users/n` is answered with status 404 and body `user not found`. -/
theorem unknown_id_not_found (json : Json) (rs : List Request) (n body : String)
    (hne : n ≠ "") (hds : ∀ c ∈ n.data, c.isDigit = true)
    (hnew : ∀ r ∈ rs, r.Method = "POST" → MatchString RegisterStudent r.Path = true →
      ∀ s, json.Decode r.Body = some s → Itoa s.ID ≠ n) :
    (serve json (run json startupStore rs) ⟨"GET", "/users/" ++ n, body⟩).2.status =
        some 404 ∧
      (serve json (run json startupStore rs) ⟨"GET", "/users/" ++ n, body⟩).2.body =
        "user not found" := by
  have hnil : n.data ≠ [] := fun h => hne (String.ext h)
  have hp : MatchString getStudent ("/users/" ++ n) = true :=
    (getStudent_match_iff_path _).2 ⟨n.data, hnil, hds, rfl⟩
  have hnone : (run json startupStore rs).get n = none := by
    by_contra hc
    rcases run_get_origin json rs startupStore n hc with h0 | ⟨r, hr, hm, hpath, s, hd, hk⟩
    · have hD : n ≠ "Data" := digits_ne_Data n hne hds
      have hD' : ¬ "Data" = n := fun e => hD e.symm
      simp [startupStore, datastore.get, hD'] at h0
    · exact hnew r hr hm hpath s hd hk
  rw [serve_get json _ ⟨"GET", "/users/" ++ n, body⟩ rfl hp]
  have hg := get_of_digits json (run json startupStore rs) "GET" body n.data hnil hds
  have he : String.mk n.data = n := rfl
  rw [he] at hg
  rw [hg, hnone]
  simp [StatusNotFound, reply_eq]

/-- C2 at `GET /users/1` on the freshly started store. -/
theorem unknown_id_not_found_witness :
    (serve wireJson startupStore ⟨"GET", "/users/1", ""⟩).2.status = some 404 ∧
      (serve wireJson startupStore ⟨"GET", "/users/1", ""⟩).2.body = "user not found" :=
  unknown_id_not_found wireJson [] "1" "" (by decide) (by decide)
    (fun _ h => absurd h (List.not_mem_nil _))

/-- C7 fails on the startup store: its one entry has key `Data` and id `1`,
whose decimal form is `1`. -/
theorem startup_key_is_not_decimal_id :
    run wireJson startupStore [] = [("Data", ⟨1, "bob", 21⟩)] ∧ Itoa 1 = "1" ∧
      ¬ (∀ p ∈ run wireJson startupStore [], p.1 = Itoa p.2.ID) := by
  decide

/-- The response of `List` on a fresh writer: status 200 with the bytes
`json.Marshal` returns for the snapshot, or status 500 with body
`internal server error` when it fails. -/
theorem list_reply (json : Json) (m : datastore) :
    (StudentHandler.List json m ResponseWriter.fresh).status =
        some (if (json.MarshalList (snapshot m)).isSome = true then 200 else 500) ∧
      (StudentHandler.List json m ResponseWriter.fresh).body =
        (json.MarshalList (snapshot m)).getD "internal server error" := by
  simp only [StudentHandler.List]
  cases json.MarshalList (snapshot m) with
  | none => exact ⟨rfl, rfl⟩
  | some bytes => exact ⟨rfl, rfl⟩

/-- With distinct keys, the snapshot is the value of each key, in key order. -/
theorem snapshot_eq_values (m : datastore) (hnd : (m.map Prod.fst).Nodup) :
    (snapshot m).map some = (m.map Prod.fst).map m.get := by
  simp only [snapshot, List.map_map]
  apply List.map_congr_left
  intro p hp
  exact (datastore.get_of_mem m p.1 p.2 hnd hp).symm

/-- The keys of the list are the keys the map answers for. -/
theorem mem_keys_iff (m : datastore) (k : String) :
    k ∈ m.map Prod.fst ↔ (m.get k).isSome = true := by
  have h := datastore.get_eq_none_iff m k
  cases hg : m.get k with
  | none => rw [hg] at h; simpa using h.1 rfl
  | some v =>
    rw [hg] at h
    simp only [Option.isSome_some, iff_true]
    by_contra hc
    exact absurd (h.2 hc) (by simp)

/-- C9 (seeded entry): in every store reached from the startup store, the key
`Data` is mapped to the record `1, bob, 21`; no Create key and no Get lookup
key is `Data`; `List` answers with the encoding of its snapshot (status 200,
or 500 when encoding fails); the snapshot contains the seeded record; and the
snapshot has exactly one element per entry of the mapping: the keys are
distinct, they are the keys the map answers for, and the snapshot is the
value of each of them in turn. -/
theorem seeded_entry_permanent (json : Json) (rs : List Request) :
    (run json startupStore rs).get "Data" = some ⟨1, "bob", 21⟩ ∧
      (∀ i : Int, Itoa i ≠ "Data") ∧
      (∀ path : String, (getStudent.FindStringSubmatch path).get? 1 ≠ some "Data") ∧
      (StudentHandler.List json (run json startupStore rs) ResponseWriter.fresh).status =
        some (if (json.MarshalList (snapshot (run json startupStore rs))).isSome = true
          then 200 else 500) ∧
      (StudentHandler.List json (run json startupStore rs) ResponseWriter.fresh).body =
        (json.MarshalList (snapshot (run json startupStore rs))).getD
          "internal server error" ∧
      (⟨1, "bob", 21⟩ : Student) ∈ snapshot (run json startupStore rs) ∧
      ((run json startupStore rs).map Prod.fst).Nodup ∧
      (∀ k, k ∈ (run json startupStore rs).map Prod.fst ↔
        ((run json startupStore rs).get k).isSome = true) ∧
      (snapshot (run json startupStore rs)).map some =
        ((run json startupStore rs).map Prod.fst).map (run json startupStore rs).get := by
  obtain ⟨hseed, hnd⟩ := run_seed json rs startupStore (by decide) (by decide)
  obtain ⟨hl1, hl2⟩ := list_reply json (run json startupStore rs)
  refine ⟨hseed, Itoa_ne_Data, ?_, hl1, hl2, ?_, hnd, mem_keys_iff _, snapshot_eq_values _ hnd⟩
  · intro path
    by_cases hm : MatchString getStudent path = true
    · obtain ⟨ds, _, hds, hp⟩ := (getStudent_match_iff path).1 hm
      simp only [getStudent.FindStringSubmatch, hm, if_true, List.get?]
      intro h
      have hkey : String.mk (path.data.drop 7) = "Data" := Option.some.inj h
      have hpd : path.data.drop 7 = ds := by rw [hp]; rfl
      rw [hpd] at hkey
      have hd : ds = "Data".data := congrArg String.data hkey
      exact absurd (hds 'D' (by rw [hd]; decide)) (by decide)
    · simp [getStudent.FindStringSubmatch, hm]
  · exact List.mem_map.2 ⟨("Data", ⟨1, "bob", 21⟩), datastore.mem_of_get _ _ _ hseed, rfl⟩

/-! ## The mux patterns -/

theorem splitSlash_ne_nil (l : List Char) : splitSlash l ≠ [] := by
  cases l with
  | nil => simp [splitSlash]
  | cons c cs =>
    simp only [splitSlash]
    split
    · simp
    · split <;> simp

/-- Joining the segments with slashes gives the path back. -/
theorem splitSlash_join (l : List Char) :
    List.intercalate ['/'] (splitSlash l) = l := by
  induction l with
  | nil => rfl
  | cons c cs ih =>
    simp only [splitSlash]
    cases h : splitSlash cs with
    | nil => exact absurd h (splitSlash_ne_nil cs)
    | cons seg rest =>
      rw [h] at ih
      simp only
      by_cases hc : c = '/'
      · subst hc
        simp only [if_true]
        rw [← ih]
        simp [List.intercalate, List.intersperse]
      · simp only [hc, if_false]
        rw [← ih]
        cases rest <;> simp [List.intercalate, List.intersperse]

/-- No segment contains a slash. -/
theorem splitSlash_no_slash (l : List Char) : ∀ seg ∈ splitSlash l, '/' ∉ seg := by
  induction l with
  | nil => simp [splitSlash]
  | cons c cs ih =>
    simp only [splitSlash]
    cases h : splitSlash cs with
    | nil => exact absurd h (splitSlash_ne_nil cs)
    | cons seg rest =>
      rw [h] at ih
      simp only
      by_cases hc : c = '/'
      · subst hc
        simp only [if_true]
        intro s hs
        rcases List.mem_cons.1 hs with rfl | hs
        · simp
        · exact ih s hs
      · simp only [hc, if_false]
        intro s hs
        rcases List.mem_cons.1 hs with rfl | hs
        · intro hm
          rcases List.mem_cons.1 hm with e | hm
          · exact hc e.symm
          · exact ih seg (List.mem_cons_self _ _) hm
        · exact ih s (List.mem_cons_of_mem _ hs)

/-- A slash-free run followed by a slash is one segment. -/
theorem splitSlash_append (a b : List Char) (ha : '/' ∉ a) :
    splitSlash (a ++ '/' :: b) = a :: splitSlash b := by
  induction a with
  | nil =>
    simp only [List.nil_append, splitSlash]
    cases h : splitSlash b with
    | nil => exact absurd h (splitSlash_ne_nil b)
    | cons seg rest => simp
  | cons c a ih =>
    have hc : c ≠ '/' := fun e => ha (e ▸ List.mem_cons_self _ _)
    have ha' : '/' ∉ a := fun h => ha (List.mem_cons_of_mem _ h)
    have e : splitSlash (c :: (a ++ '/' :: b)) =
        (match splitSlash (a ++ '/' :: b) with
          | [] => [[]]
          | seg :: rest => if c = '/' then [] :: seg :: rest else (c :: seg) :: rest) := rfl
    rw [List.cons_append, e, ih ha']
    simp [hc]

/-- A slash-free run is one segment. -/
theorem splitSlash_of_no_slash (a : List Char) (ha : '/' ∉ a) : splitSlash a = [a] := by
  induction a with
  | nil => rfl
  | cons c a ih =>
    have hc : c ≠ '/' := fun e => ha (e ▸ List.mem_cons_self _ _)
    have ha' : '/' ∉ a := fun h => ha (List.mem_cons_of_mem _ h)
    simp only [splitSlash, ih ha', hc, if_false]

/-- The paths the mux of `main` hands to the handler: `/Student`, or
`/Student/` followed by one non-empty segment without a slash. -/
theorem muxAccepts_iff (path : String) :
    muxAccepts path = true ↔
      path = "/Student" ∨
        ∃ seg : List Char, seg ≠ [] ∧ '/' ∉ seg ∧ path = "/Student/" ++ String.mk seg := by
  have hp1 : splitSlash "/Student".data = [[], "Student".data] := by decide
  have hp2 : splitSlash "/Student/\x7bid\x7d".data =
      [[], "Student".data, "\x7bid\x7d".data] := by decide
  have hw0 : isWildcard [] = false := by decide
  have hw1 : isWildcard "Student".data = false := by decide
  have hw2 : isWildcard "\x7bid\x7d".data = true := by decide
  constructor
  · intro h
    simp only [muxAccepts, muxPatterns, List.any_cons, List.any_nil, Bool.or_false,
      Bool.or_eq_true, patternMatches, hp1, hp2] at h
    rcases h with h | h
    · left
      have hj := splitSlash_join path.data
      cases hs : splitSlash path.data with
      | nil => exact absurd hs (splitSlash_ne_nil _)
      | cons x xs =>
        rw [hs] at h hj
        cases xs with
        | nil => simp [segmentsMatch] at h
        | cons y ys =>
          cases ys with
          | nil =>
            simp only [segmentsMatch, segmentMatches, hw0, hw1, Bool.and_true,
              Bool.and_eq_true, decide_eq_true_eq, Bool.false_eq_true, if_false] at h
            obtain ⟨hx, hy⟩ := h
            subst hx; subst hy
            exact String.ext hj.symm
          | cons z zs => simp [segmentsMatch] at h
    · right
      have hj := splitSlash_join path.data
      have hns := splitSlash_no_slash path.data
      cases hs : splitSlash path.data with
      | nil => exact absurd hs (splitSlash_ne_nil _)
      | cons x xs =>
        rw [hs] at h hj hns
        cases xs with
        | nil => simp [segmentsMatch] at h
        | cons y ys =>
          cases ys with
          | nil => simp [segmentsMatch] at h
          | cons z zs =>
            cases zs with
            | nil =>
              simp only [segmentsMatch, segmentMatches, hw0, hw1, hw2, Bool.and_true,
                Bool.and_eq_true, decide_eq_true_eq, Bool.false_eq_true, if_false,
                if_true, Bool.not_eq_true', List.isEmpty_eq_false] at h
              obtain ⟨hx, hy, hz⟩ := h
              subst hx; subst hy
              have e : List.intercalate ['/'] [[], "Student".data, z] =
                  ("/Student/" ++ String.mk z).data := by
                simp [List.intercalate, List.intersperse, String.data_append]
              refine ⟨z, ?_, hns z (by simp), String.ext (hj.symm.trans e)⟩
              intro e; subst e; simp at hz
            | cons u us => simp [segmentsMatch] at h
  · rintro (rfl | ⟨seg, hne, hns, rfl⟩)
    · decide
    · have hsplit : splitSlash ("/Student/" ++ String.mk seg).data =
          [[], "Student".data, seg] := by
        have e : ("/Student/" ++ String.mk seg).data =
            [] ++ '/' :: ("Student".data ++ '/' :: seg) := rfl
        rw [e, splitSlash_append [] _ (by simp),
          splitSlash_append "Student".data seg (by decide), splitSlash_of_no_slash seg hns]
      have hze : seg.isEmpty = false := by
        cases seg with
        | nil => exact absurd rfl hne
        | cons _ _ => rfl
      simp only [muxAccepts, muxPatterns, List.any_cons, List.any_nil, Bool.or_false,
        Bool.or_eq_true, patternMatches, hp1, hp2, hsplit]
      right
      simp [segmentsMatch, segmentMatches, hw0, hw1, hw2, hze]

/-- A path the mux accepts starts with `/S`. -/
theorem muxAccepts_head (path : String) (h : muxAccepts path = true) :
    ∃ t, path.data = '/' :: 'S' :: t := by
  rcases (muxAccepts_iff path).1 h with rfl | ⟨seg, _, _, rfl⟩
  · exact ⟨_, rfl⟩
  · exact ⟨_, rfl⟩

/-- C10 (mux prefix mismatch): for a path accepted by one of the two patterns
registered in `main`, and every method, body and store, neither the Get nor
the Create regular expression matches, `ServeHTTP` answers with status 404 and
body `not found`, and the store is unchanged. -/
theorem mux_route_mismatch (json : Json) (m : datastore) (method path body : String)
    (h : muxAccepts path = true) :
    MatchString getStudent path = false ∧ MatchString RegisterStudent path = false ∧
      (serve json m ⟨method, path, body⟩).2.status = some 404 ∧
      (serve json m ⟨method, path, body⟩).2.body = "not found" ∧
      (serve json m ⟨method, path, body⟩).1 = m := by
  obtain ⟨t, ht⟩ := muxAccepts_head path h
  have hg : MatchString getStudent path = false := by
    cases hm : MatchString getStudent path with
    | false => rfl
    | true =>
      obtain ⟨ds, _, _, hp⟩ := (getStudent_match_iff path).1 hm
      rw [ht] at hp
      exact absurd (List.cons.inj (List.cons.inj hp).2).1 (by decide)
  have hc : MatchString RegisterStudent path = false := by
    cases hm : MatchString RegisterStudent path with
    | false => rfl
    | true =>
      obtain ⟨k, hp⟩ := (RegisterStudent_match_iff path).1 hm
      rw [ht] at hp
      exact absurd (List.cons.inj (List.cons.inj hp).2).1 (by decide)
  refine ⟨hg, hc, ?_⟩
  rw [serve_default json m ⟨method, path, body⟩ (fun x => by simp [hg] at x)
    (fun x => by simp [hc] at x)]
  simp [notFound, StatusNotFound, reply_eq]

/-- C10 at `GET /Student/1` on the startup store. -/
theorem mux_route_mismatch_witness :
    MatchString getStudent "/Student/1" = false ∧
      MatchString RegisterStudent "/Student/1" = false ∧
      (serve wireJson startupStore ⟨"GET", "/Student/1", ""⟩).2.status = some 404 ∧
      (serve wireJson startupStore ⟨"GET", "/Student/1", ""⟩).2.body = "not found" ∧
      (serve wireJson startupStore ⟨"GET", "/Student/1", ""⟩).1 = startupStore :=
  mux_route_mismatch wireJson startupStore "GET" "/Student/1" "" (by decide)

end StudentAPI
